import Mathlib

/-!
Verification of the workspace-renaming core of `autoname_workspaces.py`
(i3scripts).  Strings are shallowly embedded as `List Char`; the window
manager, the property-query utility and the IPC command channel are the
external collaborators described by the spec and appear here as explicit
inputs (snapshots, window metadata, a command-execution callback).

The script imports `parse_workspace_name`, `construct_workspace_name`,
`NameParts`, `format_icon_list` and `xprop` from a `util` module that is
not part of the provided sources; those definitions are modelled from the
spec and are marked as such in their doc comments.  Everything else is a
direct translation of `src/autoname_workspaces.py`.
-/

/-- Lower-casing of a string, as Python's `str.lower` applied by the
resolver before each table lookup (`autoname_workspaces.py` lines 166, 181). -/
def lowerStr (s : List Char) : List Char := s.map Char.toLower

/-- `DEFAULT_ICON = '*'` (line 139): the icon used for any application
not matched by the tables. -/
def DEFAULT_ICON : List Char := ['*']

/-- Modelled from the spec: `NameParts` from `util` --
`{ num, shortname, icons }`, each optional.  The numeric field is kept as
its literal digit string so that reconstruction is exactly
inverse-compatible with parsing, as the spec requires; the reconciler
writes the decimal rendering of its counter into it. -/
structure NameParts where
  num : Option (List Char)
  shortname : Option (List Char)
  icons : Option (List Char)
deriving DecidableEq, Repr

/-- A window as seen through the property-query collaborator: the ordered
value lists returned by `xprop(window, 'WM_CLASS')` and
`xprop(window, 'WM_NAME')`, either of which may be absent. -/
structure WindowView where
  wmClass : Option (List (List Char))
  wmName : Option (List (List Char))
deriving DecidableEq, Repr

/-- The process-wide configuration: the two (already lower-cased) icon
tables and the four module-level flags of `autoname_workspaces.py`
(lines 142-154). -/
structure Config where
  windowIcons : List (List Char × List Char)
  windowNames : List (List Char × List Char)
  checkWindowNamesFirst : Bool
  requireExactNameMatch : Bool
  singleIconOnly : Bool
  renumberWorkspaces : Bool
deriving DecidableEq, Repr

/-- A workspace of the tree snapshot: its current display name and its
leaf windows in the window-manager-provided order. -/
structure Workspace where
  name : List Char
  windows : List WindowView
deriving DecidableEq, Repr

/-- One entry of the separately fetched `i3.get_workspaces()` info list:
only the `output` field is read by the script. -/
structure WsInfo where
  output : List Char
deriving DecidableEq, Repr

/-- Split a string at its first space: returns the segment before the
first space and, when a space exists, the remainder after it. -/
def splitFirstSpace : List Char → List Char × Option (List Char)
  | [] => ([], none)
  | c :: t =>
    if c = ' ' then ([], some t)
    else
      let p := splitFirstSpace t
      (c :: p.1, p.2)

/-- Modelled from the spec: `parse_workspace_name` from `util`.  Grammar
`"<num>:<shortname> <icons>"`: an optional leading integer (kept as its
digit string), an optional shortname token, and an optional trailing icon
block after a space delimiter.  Never fails; input without that structure
degrades to treating the leading segment as shortname. -/
def parse_workspace_name (s : List Char) : NameParts :=
  let ds := s.takeWhile Char.isDigit
  let rest := s.dropWhile Char.isDigit
  if ds.isEmpty then
    let p := splitFirstSpace s
    ⟨none, some p.1, p.2⟩
  else
    match rest with
    | [] => ⟨some ds, none, none⟩
    | c :: r =>
      if c = ':' then
        let p := splitFirstSpace r
        ⟨some ds, some p.1, p.2⟩
      else
        let p := splitFirstSpace s
        ⟨none, some p.1, p.2⟩

/-- Modelled from the spec: `construct_workspace_name` from `util`, the
inverse of `parse_workspace_name` for the num/shortname portion.  When
`icons` is absent or empty, the icon block and its delimiters are omitted
entirely, which is what produces the clean name on shutdown. -/
def construct_workspace_name (p : NameParts) : List Char :=
  let iconsPart : List Char :=
    match p.icons with
    | some ic => if ic.isEmpty then [] else ' ' :: ic
    | none => []
  match p.num with
  | some d =>
    if p.shortname.isSome || !iconsPart.isEmpty then
      d ++ ':' :: (p.shortname.getD []) ++ iconsPart
    else d
  | none => (p.shortname.getD []) ++ iconsPart

/-- `icon_for_name` (lines 162-175): look the window's lower-cased
`WM_NAME` values up in the by-name table, by exact key or by key-prefix
match depending on `REQUIRE_EXACT_NAME_MATCH`; absent when nothing
matches. -/
def icon_for_name (cfg : Config) (w : WindowView) : Option (List Char) :=
  match w.wmName with
  | none => none
  | some names =>
    names.findSome? fun nam0 =>
      let nam := lowerStr nam0
      if cfg.requireExactNameMatch then
        (cfg.windowNames.find? fun kv => decide (kv.1 = nam)).map Prod.snd
      else
        (cfg.windowNames.find? fun kv => kv.1.isPrefixOf nam).map Prod.snd

/-- `icon_for_class` (lines 177-185): look the window's lower-cased
`WM_CLASS` values up in the by-class table by exact key; absent when
nothing matches. -/
def icon_for_class (cfg : Config) (w : WindowView) : Option (List Char) :=
  match w.wmClass with
  | none => none
  | some classes =>
    classes.findSome? fun cls0 =>
      let cls := lowerStr cls0
      (cfg.windowIcons.find? fun kv => decide (kv.1 = cls)).map Prod.snd

/-- `icon_for_window` (lines 187-197): the name icon when
`CHECK_WINDOW_NAMES_FIRST` is set and one exists, else the class icon
when one exists, else `DEFAULT_ICON`. -/
def icon_for_window (cfg : Config) (w : WindowView) : List Char :=
  let class_icon := icon_for_class cfg w
  let name_icon := icon_for_name cfg w
  if cfg.checkWindowNamesFirst && name_icon.isSome then
    name_icon.getD DEFAULT_ICON
  else if class_icon.isSome then
    class_icon.getD DEFAULT_ICON
  else
    DEFAULT_ICON

/-- Run-length encoding of adjacent equal elements, as the formatter's
grouping of consecutive identical icons. -/
def rle : List (List Char) → List (List Char × Nat)
  | [] => []
  | x :: xs =>
    match rle xs with
    | [] => [(x, 1)]
    | (y, c) :: rest =>
      if x = y then (x, c + 1) :: rest else (x, 1) :: (y, c) :: rest

/-- Superscript rendering of a single decimal digit character. -/
def supDigit (c : Char) : Char :=
  if c = '0' then '⁰' else if c = '1' then '¹' else if c = '2' then '²'
  else if c = '3' then '³' else if c = '4' then '⁴' else if c = '5' then '⁵'
  else if c = '6' then '⁶' else if c = '7' then '⁷' else if c = '8' then '⁸'
  else if c = '9' then '⁹' else c

/-- Subscript rendering of a single decimal digit character. -/
def subDigit (c : Char) : Char :=
  if c = '0' then '₀' else if c = '1' then '₁' else if c = '2' then '₂'
  else if c = '3' then '₃' else if c = '4' then '₄' else if c = '5' then '₅'
  else if c = '6' then '₆' else if c = '7' then '₇' else if c = '8' then '₈'
  else if c = '9' then '₉' else c

/-- Fuel-driven decimal rendering of a natural number (most significant
digit first); the fuel in `natChars` is always sufficient. -/
def natCharsAux : Nat → Nat → List Char
  | 0, _ => []
  | fuel + 1, n =>
    if n < 10 then [Nat.digitChar n]
    else natCharsAux fuel (n / 10) ++ [Nat.digitChar (n % 10)]

/-- Decimal rendering of a natural number, as Python's `str(n)`. -/
def natChars (n : Nat) : List Char := natCharsAux (n + 1) n

/-- One run of the factorized notation: a bare icon for a run of length
one, otherwise the icon followed by the count with each decimal digit
mapped through the given digit renderer. -/
def renderRun (dm : Char → Char) (r : List Char × Nat) : List Char :=
  if r.2 ≤ 1 then r.1 else r.1 ++ (natChars r.2).map dm

/-- The three mode strings accepted by the icon-list formatter. -/
def ValidMode (mode : List Char) : Prop :=
  mode = ("default").toList ∨ mode = ("mathematician").toList ∨
    mode = ("chemist").toList

instance (mode : List Char) : Decidable (ValidMode mode) := by
  unfold ValidMode; infer_instance

/-- The error value raised for an unrecognized formatter mode. -/
def invalidModeMsg (mode : List Char) : List Char :=
  ("InvalidFormatMode: ").toList ++ mode

/-- The error value raised by an out-of-range indexed list access. -/
def indexErrMsg : List Char := ("IndexError: list index out of range").toList

/-- Modelled from the spec: `format_icon_list` from `util`.  Mode
`default` concatenates the icons; `mathematician` and `chemist`
run-length-encode consecutive identical icons and render counts above one
in superscript respectively subscript digits; any other mode fails with
the `InvalidFormatMode` error. -/
def format_icon_list (icons : List (List Char)) (mode : List Char) :
    Except (List Char) (List Char) :=
  if mode = ("default").toList then .ok icons.flatten
  else if mode = ("mathematician").toList then
    .ok (((rle icons).map (renderRun supDigit)).flatten)
  else if mode = ("chemist").toList then
    .ok (((rle icons).map (renderRun subDigit)).flatten)
  else .error (invalidModeMsg mode)

/-- The single-icon collapse of line 213: the first icon of the list that
is not `DEFAULT_ICON`, or `DEFAULT_ICON` when there is none. -/
def single_icon (icons : List (List Char)) : List Char :=
  (icons.find? fun i => decide (i ≠ DEFAULT_ICON)).getD DEFAULT_ICON

/-- Lines 212-213: when `SINGLE_ICON_ONLY` is set the whole icon list is
replaced, before formatting, by its single-icon collapse. -/
def effective_icon_list (cfg : Config) (icons : List (List Char)) :
    List (List Char) :=
  if cfg.singleIconOnly then [single_icon icons] else icons

/-- The per-workspace outcome of one reconciliation iteration: the
workspace's current name, the number written into the new name (absent
when renumbering is off and the old name had none), and the new name. -/
structure TraceEntry where
  oldName : List Char
  newNum : Option (List Char)
  newName : List Char
deriving DecidableEq, Repr

/-- The loop of `rename_workspaces` (lines 203-232), carrying the running
counter `n` and the `prev_output` sentinel.  Each iteration first reads
`ws_infos[ws_index]` (an out-of-range access fails, line 208), parses the
current name, resolves and formats the icon list (a bad mode fails,
line 214), inserts the one-slot gap on an output transition (lines
218-220), assigns the number (lines 223-224) and constructs the new name
(lines 226-228).  The trace records every computed name; the emitted
commands are derived from it in `rename_workspaces`. -/
def rename_go (cfg : Config) (mode : List Char) :
    Option (List Char) → Nat → List Workspace → List WsInfo →
    Except (List Char) (List TraceEntry)
  | _, _, [], _ => .ok []
  | _, _, _ :: _, [] => .error indexErrMsg
  | prev, n, ws :: wss, info :: infos =>
    let np := parse_workspace_name ws.name
    let icon_list := effective_icon_list cfg (ws.windows.map (icon_for_window cfg))
    match format_icon_list icon_list mode with
    | .error e => .error e
    | .ok new_icons =>
      let n1 :=
        match prev with
        | some p => if info.output ≠ p then n + 1 else n
        | none => n
      let new_num : Option (List Char) :=
        if cfg.renumberWorkspaces then some (natChars n1) else np.num
      let new_name :=
        construct_workspace_name ⟨new_num, np.shortname, some new_icons⟩
      match rename_go cfg mode (some info.output) (n1 + 1) wss infos with
      | .error e => .error e
      | .ok tr => .ok (⟨ws.name, new_num, new_name⟩ :: tr)

/-- One full reconciliation pass over the two snapshots, starting from
`prev_output = None` and `n = 1` (lines 205-206). -/
def rename_trace (cfg : Config) (mode : List Char) (wss : List Workspace)
    (infos : List WsInfo) : Except (List Char) (List TraceEntry) :=
  rename_go cfg mode none 1 wss infos

/-- `rename_workspaces` (lines 203-232): the ordered rename commands
(old name, new name) of one pass; a workspace whose new name equals its
current name is skipped (lines 229-230). -/
def rename_workspaces (cfg : Config) (mode : List Char) (wss : List Workspace)
    (infos : List WsInfo) : Except (List Char) (List (List Char × List Char)) :=
  (rename_trace cfg mode wss infos).map fun tr =>
    tr.filterMap fun e =>
      if e.oldName = e.newName then none else some (e.oldName, e.newName)

/-- The rename commands of the shutdown pass `on_exit` (lines 236-248):
each workspace's name is parsed and reconstructed with `icons` forced to
absent, and a command is emitted only when the name changes. -/
def on_exit_commands (tree : List Workspace) : List (List Char × List Char) :=
  tree.filterMap fun ws =>
    let np := parse_workspace_name ws.name
    let new_name := construct_workspace_name ⟨np.num, np.shortname, none⟩
    if ws.name = new_name then none else some (ws.name, new_name)

/-- The shutdown loop with the IPC command collaborator made explicit:
`ex` models `i3.command`, which per the spec is fire-and-forget and
reports success or failure as a status.  Each attempted command is
recorded together with its status; the loop continues regardless. -/
def on_exit_run (ex : List Char × List Char → Bool) :
    List Workspace → List ((List Char × List Char) × Bool)
  | [] => []
  | ws :: rest =>
    let np := parse_workspace_name ws.name
    let nn := construct_workspace_name ⟨np.num, np.shortname, none⟩
    if ws.name = nn then on_exit_run ex rest
    else ((ws.name, nn), ex (ws.name, nn)) :: on_exit_run ex rest

/-- The whole shutdown path: the loop over all workspaces followed by the
terminal `i3.main_quit()` / `sys.exit(0)` step (lines 247-248), recorded
as the Boolean termination marker. -/
def on_exit_pass (ex : List Char × List Char → Bool) (tree : List Workspace) :
    List ((List Char × List Char) × Bool) × Bool :=
  (on_exit_run ex tree, true)

/-- The counter value used for the current workspace: bumped by the gap
slot exactly when the output differs from a present previous output. -/
def renumStep (prev : Option (List Char)) (o : List Char) (n : Nat) : Nat :=
  match prev with
  | some p => if o ≠ p then n + 1 else n
  | none => n

/-- The trace entry one loop iteration produces for workspace `ws` with
formatted icons `new_icons` and counter value `n1`. -/
def trace_entry_of (cfg : Config) (ws : Workspace) (new_icons : List Char)
    (n1 : Nat) : TraceEntry :=
  let np := parse_workspace_name ws.name
  let nn := if cfg.renumberWorkspaces then some (natChars n1) else np.num
  ⟨ws.name, nn, construct_workspace_name ⟨nn, np.shortname, some new_icons⟩⟩

/-- The sequence of numbers the loop of `rename_workspaces` assigns when
walking the given output sequence: the counter starts at `n`, is bumped
one extra step on every output transition after the first workspace, and
advances by one per workspace. -/
def numsFrom : Option (List Char) → Nat → List (List Char) → List Nat
  | _, _, [] => []
  | prev, n, o :: os =>
    let n1 :=
      match prev with
      | some p => if o ≠ p then n + 1 else n
      | none => n
    n1 :: numsFrom (some o) (n1 + 1) os

/-- The expected numbering for contiguous output groups: group sizes
`s_1, s_2, ...` receive `start..start+s_1-1`, then the next group starts
two past the previous group's last number, and so on. -/
def gapNums : Nat → List Nat → List Nat
  | _, [] => []
  | start, s :: rest => List.range' start s ++ gapNums (start + s + 1) rest

lemma except_map_cons_case {α : Type} (f : TraceEntry → α)
    (x : Except (List Char) (List TraceEntry)) (e : TraceEntry) :
    Except.map (List.map f)
        (match x with
          | .error e' => .error e'
          | .ok tr => .ok (e :: tr)) =
      match Except.map (List.map f) x with
      | .error e' => .error e'
      | .ok l => .ok (f e :: l) := by
  cases x <;> simp [Except.map]


/-- A configuration with renumbering enabled and empty icon tables, used
for concrete instances. -/
def cfgDefault : Config := ⟨[], [], true, false, false, true⟩

/-- A configuration with single-icon mode enabled. -/
def cfgSingle : Config := ⟨[], [], true, false, true, true⟩

/-- A configuration with class-resolution configured first (the
name-first flag cleared) and a by-name table entry for `vim`. -/
def cfgClassFirst : Config :=
  ⟨[], [(("vim").toList, ("V").toList)], false, true, false, true⟩

/-- A window with no class values and the name `vim`: no class match, but
a by-name match under `cfgClassFirst`. -/
def winNameOnly : WindowView := ⟨none, some [("vim").toList]⟩


/-! ### Basic lemmas about the codec primitives -/

lemma splitFirstSpace_fst_no_space (s : List Char) : ' ' ∉ (splitFirstSpace s).1 := by
  induction s with
  | nil => simp [splitFirstSpace]
  | cons c t ih =>
    by_cases hc : c = ' '
    · simp [splitFirstSpace, hc]
    · simp only [splitFirstSpace, if_neg hc, List.mem_cons]
      push_neg
      exact ⟨fun h => hc h.symm, ih⟩

lemma splitFirstSpace_none (s : List Char) (h : (splitFirstSpace s).2 = none) :
    (splitFirstSpace s).1 = s := by
  induction s with
  | nil => simp [splitFirstSpace]
  | cons c t ih =>
    by_cases hc : c = ' '
    · simp [splitFirstSpace, hc] at h
    · simp [splitFirstSpace, hc] at h ⊢
      exact ih h

lemma splitFirstSpace_no_space (s : List Char) (h : ' ' ∉ s) :
    splitFirstSpace s = (s, none) := by
  induction s with
  | nil => simp [splitFirstSpace]
  | cons c t ih =>
    have hc : ¬ c = ' ' := fun hc => h (by simp [hc])
    have ht : ' ' ∉ t := fun hm => h (List.mem_cons_of_mem _ hm)
    simp [splitFirstSpace, hc, ih ht]

lemma splitFirstSpace_append_space (t u : List Char) (h : ' ' ∉ t) :
    splitFirstSpace (t ++ ' ' :: u) = (t, some u) := by
  induction t with
  | nil => simp [splitFirstSpace]
  | cons c t' ih =>
    have hc : ¬ c = ' ' := fun hc => h (by simp [hc])
    have ht : ' ' ∉ t' := fun hm => h (List.mem_cons_of_mem _ hm)
    simp [splitFirstSpace, hc, ih ht]

lemma takeWhile_append_neg (p : Char → Bool) (d : List Char) (c : Char)
    (t : List Char) (hd : ∀ x ∈ d, p x = true) (hc : p c = false) :
    (d ++ c :: t).takeWhile p = d ∧ (d ++ c :: t).dropWhile p = c :: t := by
  induction d with
  | nil => simp [List.takeWhile, List.dropWhile, hc]
  | cons x d' ih =>
    have hx : p x = true := hd x (by simp)
    have hd' : ∀ y ∈ d', p y = true := fun y hy => hd y (by simp [hy])
    have h2 := ih hd'
    simp [List.takeWhile, List.dropWhile, hx, h2.1, h2.2]

lemma takeWhile_all_of (p : Char → Bool) (d : List Char)
    (hd : ∀ x ∈ d, p x = true) :
    d.takeWhile p = d ∧ d.dropWhile p = [] := by
  induction d with
  | nil => simp
  | cons x d' ih =>
    have hx : p x = true := hd x (by simp)
    have hd' : ∀ y ∈ d', p y = true := fun y hy => hd y (by simp [hy])
    have h2 := ih hd'
    simp [List.takeWhile, List.dropWhile, hx, h2.1, h2.2]

lemma parse_eq_noNum (s : List Char) (h : s.takeWhile Char.isDigit = []) :
    parse_workspace_name s =
      ⟨none, some (splitFirstSpace s).1, (splitFirstSpace s).2⟩ := by
  unfold parse_workspace_name
  simp [h]

lemma parse_eq_numOnly (s : List Char) (h1 : s.takeWhile Char.isDigit ≠ [])
    (h2 : s.dropWhile Char.isDigit = []) :
    parse_workspace_name s = ⟨some (s.takeWhile Char.isDigit), none, none⟩ := by
  unfold parse_workspace_name
  simp [h1, h2]

lemma parse_eq_colon (s r : List Char) (h1 : s.takeWhile Char.isDigit ≠ [])
    (h2 : s.dropWhile Char.isDigit = ':' :: r) :
    parse_workspace_name s =
      ⟨some (s.takeWhile Char.isDigit), some (splitFirstSpace r).1,
        (splitFirstSpace r).2⟩ := by
  unfold parse_workspace_name
  simp [h1, h2]

lemma parse_eq_noColon (s : List Char) (c : Char) (r : List Char)
    (h1 : s.takeWhile Char.isDigit ≠ []) (h2 : s.dropWhile Char.isDigit = c :: r)
    (h3 : ¬ c = ':') :
    parse_workspace_name s =
      ⟨none, some (splitFirstSpace s).1, (splitFirstSpace s).2⟩ := by
  unfold parse_workspace_name
  simp [h1, h2, h3]

/-! ### Shape lemmas for `construct_workspace_name` -/

lemma construct_some_none_none (d : List Char) :
    construct_workspace_name ⟨some d, none, none⟩ = d := rfl

lemma construct_some_none_nil (d : List Char) :
    construct_workspace_name ⟨some d, none, some []⟩ = d := rfl

lemma construct_some_none_cons (d : List Char) (c : Char) (ic : List Char) :
    construct_workspace_name ⟨some d, none, some (c :: ic)⟩ =
      d ++ ':' :: ' ' :: c :: ic := by
  simp [construct_workspace_name]

lemma construct_some_some_none (d t : List Char) :
    construct_workspace_name ⟨some d, some t, none⟩ = d ++ ':' :: t := by
  simp [construct_workspace_name]

lemma construct_some_some_nil (d t : List Char) :
    construct_workspace_name ⟨some d, some t, some []⟩ = d ++ ':' :: t := by
  simp [construct_workspace_name]

lemma construct_some_some_cons (d t : List Char) (c : Char) (ic : List Char) :
    construct_workspace_name ⟨some d, some t, some (c :: ic)⟩ =
      d ++ ':' :: t ++ ' ' :: c :: ic := by
  simp [construct_workspace_name]

lemma construct_none_none (sn : Option (List Char)) :
    construct_workspace_name ⟨none, sn, none⟩ = sn.getD [] := by
  simp [construct_workspace_name]

lemma construct_none_nil (sn : Option (List Char)) :
    construct_workspace_name ⟨none, sn, some []⟩ = sn.getD [] := by
  simp [construct_workspace_name]

lemma construct_none_cons (sn : Option (List Char)) (c : Char) (ic : List Char) :
    construct_workspace_name ⟨none, sn, some (c :: ic)⟩ =
      sn.getD [] ++ ' ' :: c :: ic := rfl

/-! ### Round-trip of the codec on names without an icon annotation -/

lemma construct_parse_of_icons_none (s : List Char)
    (h : (parse_workspace_name s).icons = none) :
    construct_workspace_name (parse_workspace_name s) = s := by
  by_cases hds : s.takeWhile Char.isDigit = []
  · rw [parse_eq_noNum s hds] at h ⊢
    simp only at h
    have h1 := splitFirstSpace_none s h
    rw [h, construct_none_none]
    simpa using h1
  · cases hrest : s.dropWhile Char.isDigit with
    | nil =>
      rw [parse_eq_numOnly s hds hrest, construct_some_none_none]
      conv_rhs => rw [← List.takeWhile_append_dropWhile (p := Char.isDigit) (l := s)]
      rw [hrest, List.append_nil]
    | cons c r =>
      by_cases hc : c = ':'
      · subst hc
        rw [parse_eq_colon s r hds hrest] at h ⊢
        simp only at h
        have h1 := splitFirstSpace_none r h
        rw [h, construct_some_some_none, h1]
        conv_rhs => rw [← List.takeWhile_append_dropWhile (p := Char.isDigit) (l := s)]
        rw [hrest]
      · rw [parse_eq_noColon s c r hds hrest hc] at h ⊢
        simp only at h
        have h1 := splitFirstSpace_none s h
        rw [h, construct_none_none]
        simpa using h1

/-! ### Invariants of parsed name parts -/

lemma dropWhile_head_false (p : Char → Bool) :
    ∀ (l : List Char) (c : Char) (r : List Char),
      l.dropWhile p = c :: r → p c = false := by
  intro l
  induction l with
  | nil => intro c r h; simp [List.dropWhile] at h
  | cons x l' ih =>
    intro c r h
    by_cases hx : p x = true
    · rw [List.dropWhile_cons_of_pos hx] at h
      exact ih c r h
    · rw [List.dropWhile_cons_of_neg hx] at h
      cases h
      simpa using hx

lemma mem_of_mem_dropWhile (p : Char → Bool) (x : Char) :
    ∀ l : List Char, x ∈ l.dropWhile p → x ∈ l := by
  intro l
  induction l with
  | nil => simp [List.dropWhile]
  | cons y l' ih =>
    intro h
    by_cases hy : p y = true
    · rw [List.dropWhile_cons_of_pos hy] at h
      exact List.mem_cons_of_mem _ (ih h)
    · rwa [List.dropWhile_cons_of_neg hy] at h

lemma splitFirstSpace_append_no_space (d x : List Char) (h : ' ' ∉ d) :
    splitFirstSpace (d ++ x) =
      (d ++ (splitFirstSpace x).1, (splitFirstSpace x).2) := by
  induction d with
  | nil => simp
  | cons c d' ih =>
    have hc : ¬ c = ' ' := fun hc => h (by simp [hc])
    have hd' : ' ' ∉ d' := fun hm => h (List.mem_cons_of_mem _ hm)
    simp [splitFirstSpace, hc, ih hd']

lemma takeWhile_digit_no_space (s : List Char) :
    ' ' ∉ s.takeWhile Char.isDigit := by
  intro h
  have := List.mem_takeWhile_imp h
  simp at this

lemma parse_icons_none_of_no_space (s : List Char) (h : ' ' ∉ s) :
    (parse_workspace_name s).icons = none := by
  by_cases hds : s.takeWhile Char.isDigit = []
  · rw [parse_eq_noNum s hds]
    simp [splitFirstSpace_no_space s h]
  · cases hrest : s.dropWhile Char.isDigit with
    | nil => rw [parse_eq_numOnly s hds hrest]
    | cons c r =>
      have hr : ' ' ∉ r := by
        intro hm
        exact h (mem_of_mem_dropWhile _ _ s (by rw [hrest]; exact List.mem_cons_of_mem _ hm))
      by_cases hc : c = ':'
      · subst hc
        rw [parse_eq_colon s r hds hrest]
        simp [splitFirstSpace_no_space r hr]
      · rw [parse_eq_noColon s c r hds hrest hc]
        simp [splitFirstSpace_no_space s h]

lemma parse_num_shape (s : List Char) :
    (parse_workspace_name s).num = none ∨
      ∃ d, (parse_workspace_name s).num = some d ∧ d ≠ [] ∧
        ∀ c ∈ d, c.isDigit = true := by
  by_cases hds : s.takeWhile Char.isDigit = []
  · rw [parse_eq_noNum s hds]; left; rfl
  · cases hrest : s.dropWhile Char.isDigit with
    | nil =>
      rw [parse_eq_numOnly s hds hrest]; right
      exact ⟨_, rfl, hds, fun c hc => List.mem_takeWhile_imp hc⟩
    | cons c r =>
      by_cases hc : c = ':'
      · subst hc
        rw [parse_eq_colon s r hds hrest]; right
        exact ⟨_, rfl, hds, fun c hc => List.mem_takeWhile_imp hc⟩
      · rw [parse_eq_noColon s c r hds hrest hc]; left; rfl

lemma parse_shortname_no_space (s t : List Char)
    (h : (parse_workspace_name s).shortname = some t) : ' ' ∉ t := by
  by_cases hds : s.takeWhile Char.isDigit = []
  · rw [parse_eq_noNum s hds] at h
    simp only at h
    injection h with h2
    subst h2
    exact splitFirstSpace_fst_no_space s
  · cases hrest : s.dropWhile Char.isDigit with
    | nil => rw [parse_eq_numOnly s hds hrest] at h; simp at h
    | cons c r =>
      by_cases hc : c = ':'
      · subst hc
        rw [parse_eq_colon s r hds hrest] at h
        simp only at h
        injection h with h2
        subst h2
        exact splitFirstSpace_fst_no_space r
      · rw [parse_eq_noColon s c r hds hrest hc] at h
        simp only at h
        injection h with h2
        subst h2
        exact splitFirstSpace_fst_no_space s

lemma parse_shortname_digit_colon (s t : List Char)
    (hn : (parse_workspace_name s).num = none)
    (h : (parse_workspace_name s).shortname = some t)
    (hd : t.takeWhile Char.isDigit ≠ []) :
    ∀ c, (t.dropWhile Char.isDigit).head? = some c → ¬ c = ':' := by
  by_cases hds : s.takeWhile Char.isDigit = []
  · rw [parse_eq_noNum s hds] at h
    simp only at h
    injection h with h2
    subst h2
    exfalso
    apply hd
    cases s with
    | nil => simp [splitFirstSpace]
    | cons c0 s' =>
      have hc0 : c0.isDigit = false := by
        by_contra hcc
        rw [List.takeWhile_cons_of_pos (by simpa using hcc)] at hds
        simp at hds
      by_cases hsp : c0 = ' '
      · simp [splitFirstSpace, hsp]
      · rw [show splitFirstSpace (c0 :: s') =
            (c0 :: (splitFirstSpace s').1, (splitFirstSpace s').2) from by
          simp [splitFirstSpace, hsp]]
        exact List.takeWhile_cons_of_neg (by simp [hc0])
  · cases hrest : s.dropWhile Char.isDigit with
    | nil => rw [parse_eq_numOnly s hds hrest] at hn; simp at hn
    | cons c r =>
      by_cases hc : c = ':'
      · subst hc
        rw [parse_eq_colon s r hds hrest] at hn
        simp at hn
      · rw [parse_eq_noColon s c r hds hrest hc] at h
        simp only at h
        injection h with h2
        subst h2
        have hs : s.takeWhile Char.isDigit ++ c :: r = s := by
          conv_rhs => rw [← List.takeWhile_append_dropWhile (p := Char.isDigit) (l := s)]
          rw [hrest]
        have hsplit := splitFirstSpace_append_no_space (s.takeWhile Char.isDigit)
          (c :: r) (takeWhile_digit_no_space s)
        rw [hs] at hsplit
        have hcd : c.isDigit = false := dropWhile_head_false _ s c r hrest
        have hdigs : ∀ x ∈ s.takeWhile Char.isDigit, Char.isDigit x = true :=
          fun x hx => List.mem_takeWhile_imp hx
        by_cases hsp : c = ' '
        · subst hsp
          rw [show splitFirstSpace (' ' :: r) = ([], some r) from by
            simp [splitFirstSpace]] at hsplit
          intro c' hc'
          rw [hsplit] at hc'
          have hdrop : (s.takeWhile Char.isDigit).dropWhile Char.isDigit = [] :=
            (takeWhile_all_of _ _ hdigs).2
          simp [hdrop] at hc'
        · rw [show splitFirstSpace (c :: r) =
            (c :: (splitFirstSpace r).1, (splitFirstSpace r).2) from by
            simp [splitFirstSpace, hsp]] at hsplit
          intro c' hc'
          rw [hsplit] at hc'
          have h2 := takeWhile_append_neg Char.isDigit (s.takeWhile Char.isDigit) c
            ((splitFirstSpace r).1) hdigs hcd
          simp only [h2.2, List.head?_cons, Option.some.injEq] at hc'
          subst hc'
          exact hc

/-! ### Re-parsing a constructed name -/

lemma parse_digit_colon (d x : List Char) (hd1 : d ≠ [])
    (hd2 : ∀ c ∈ d, c.isDigit = true) :
    parse_workspace_name (d ++ ':' :: x) =
      ⟨some d, some (splitFirstSpace x).1, (splitFirstSpace x).2⟩ := by
  have h := takeWhile_append_neg Char.isDigit d ':' x hd2 (by decide)
  rw [parse_eq_colon (d ++ ':' :: x) x (by rw [h.1]; exact hd1) h.2, h.1]

lemma parse_all_digits (d : List Char) (hd1 : d ≠ [])
    (hd2 : ∀ c ∈ d, c.isDigit = true) :
    parse_workspace_name d = ⟨some d, none, none⟩ := by
  have h := takeWhile_all_of Char.isDigit d hd2
  rw [parse_eq_numOnly d (by rw [h.1]; exact hd1) h.2, h.1]

lemma construct_icons_nil (n sn : Option (List Char)) :
    construct_workspace_name ⟨n, sn, some []⟩ =
      construct_workspace_name ⟨n, sn, none⟩ := by
  cases n <;> simp [construct_workspace_name]

/-- Re-parsing a name constructed with a nonempty digit string as number
recovers that number, and reconstructing from the re-parsed shortname
(with the same icons) reproduces the name exactly. -/
lemma parse_construct_num (d : List Char) (sn : Option (List Char))
    (ic : List Char) (hd1 : d ≠ []) (hd2 : ∀ c ∈ d, c.isDigit = true)
    (hsn : ∀ t, sn = some t → ' ' ∉ t) :
    (parse_workspace_name (construct_workspace_name ⟨some d, sn, some ic⟩)).num
        = some d ∧
      construct_workspace_name
        ⟨some d,
          (parse_workspace_name
            (construct_workspace_name ⟨some d, sn, some ic⟩)).shortname,
          some ic⟩
        = construct_workspace_name ⟨some d, sn, some ic⟩ := by
  cases sn with
  | some t =>
    have ht : ' ' ∉ t := hsn t rfl
    cases ic with
    | nil =>
      rw [construct_some_some_nil]
      rw [show d ++ ':' :: t = d ++ ':' :: t from rfl,
        parse_digit_colon d t hd1 hd2, splitFirstSpace_no_space t ht]
      exact ⟨rfl, by simp [construct_workspace_name]⟩
    | cons c ic' =>
      rw [construct_some_some_cons]
      have hassoc : d ++ ':' :: t ++ ' ' :: c :: ic' =
          d ++ ':' :: (t ++ ' ' :: c :: ic') := by simp
      rw [hassoc, parse_digit_colon d _ hd1 hd2,
        splitFirstSpace_append_space t _ ht]
      exact ⟨rfl, by simp [construct_workspace_name]⟩
  | none =>
    cases ic with
    | nil =>
      rw [construct_some_none_nil, parse_all_digits d hd1 hd2]
      exact ⟨rfl, rfl⟩
    | cons c ic' =>
      rw [construct_some_none_cons]
      rw [show d ++ ':' :: ' ' :: c :: ic' = d ++ ':' :: (' ' :: c :: ic') from rfl,
        parse_digit_colon d _ hd1 hd2,
        show splitFirstSpace (' ' :: c :: ic') = ([], some (c :: ic')) from by
          simp [splitFirstSpace]]
      exact ⟨rfl, by simp [construct_workspace_name]⟩

/-- Re-parsing a name constructed without a number and reconstructing
from the re-parsed parts (with the same icons) reproduces the name
exactly, provided the shortname came out of `parse_workspace_name`. -/
lemma parse_construct_none (sn : Option (List Char)) (ic : List Char)
    (hsn : ∀ t, sn = some t → ' ' ∉ t)
    (hsn2 : ∀ t, sn = some t → t.takeWhile Char.isDigit ≠ [] →
      ∀ c, (t.dropWhile Char.isDigit).head? = some c → ¬ c = ':') :
    construct_workspace_name
      ⟨(parse_workspace_name (construct_workspace_name ⟨none, sn, some ic⟩)).num,
       (parse_workspace_name (construct_workspace_name ⟨none, sn, some ic⟩)).shortname,
       some ic⟩
      = construct_workspace_name ⟨none, sn, some ic⟩ := by
  cases sn with
  | none =>
    cases ic with
    | nil => rfl
    | cons c ic' =>
      have hC : construct_workspace_name ⟨none, none, some (c :: ic')⟩ =
          ' ' :: c :: ic' := by simp [construct_workspace_name]
      rw [hC, parse_eq_noNum _ (by rw [List.takeWhile_cons_of_neg (by decide)]),
        show splitFirstSpace (' ' :: c :: ic') = ([], some (c :: ic')) from by
          simp [splitFirstSpace]]
      simp [construct_workspace_name]
  | some t =>
    have ht : ' ' ∉ t := hsn t rfl
    cases ic with
    | nil =>
      have hC : construct_workspace_name ⟨none, some t, some []⟩ = t := by
        simp [construct_workspace_name]
      rw [hC, construct_icons_nil]
      have hi := parse_icons_none_of_no_space t ht
      have heta : (⟨(parse_workspace_name t).num,
          (parse_workspace_name t).shortname, (none : Option (List Char))⟩ :
            NameParts) = parse_workspace_name t := by
        conv_rhs => rw [show parse_workspace_name t =
          ⟨(parse_workspace_name t).num, (parse_workspace_name t).shortname,
            (parse_workspace_name t).icons⟩ from rfl]
        rw [hi]
      rw [heta]
      exact construct_parse_of_icons_none t hi
    | cons c ic' =>
      have hC : construct_workspace_name ⟨none, some t, some (c :: ic')⟩ =
          t ++ ' ' :: c :: ic' := by simp [construct_workspace_name]
      have hsplit : splitFirstSpace (t ++ ' ' :: c :: ic') = (t, some (c :: ic')) :=
        splitFirstSpace_append_space t _ ht
      have key : parse_workspace_name (t ++ ' ' :: c :: ic') =
          ⟨none, some t, some (c :: ic')⟩ := by
        by_cases hdt : t.takeWhile Char.isDigit = []
        · have htake : (t ++ ' ' :: c :: ic').takeWhile Char.isDigit = [] := by
            cases t with
            | nil => rw [List.nil_append, List.takeWhile_cons_of_neg (by decide)]
            | cons c0 t' =>
              have hc0 : ¬ (Char.isDigit c0 = true) := by
                intro hcc
                rw [List.takeWhile_cons_of_pos hcc] at hdt
                simp at hdt
              rw [List.cons_append, List.takeWhile_cons_of_neg hc0]
          rw [parse_eq_noNum _ htake, hsplit]
        · cases hdrop : t.dropWhile Char.isDigit with
          | nil =>
            have hteq : t.takeWhile Char.isDigit = t := by
              have h0 := List.takeWhile_append_dropWhile (p := Char.isDigit) (l := t)
              rw [hdrop, List.append_nil] at h0
              exact h0
            have htne : t ≠ [] := by rw [← hteq]; exact hdt
            have hdigs : ∀ x ∈ t, Char.isDigit x = true := by
              intro x hx
              exact List.mem_takeWhile_imp (by rw [hteq]; exact hx)
            have h2 := takeWhile_append_neg Char.isDigit t ' ' (c :: ic') hdigs
              (by decide)
            rw [parse_eq_noColon _ ' ' _ (by rw [h2.1]; exact htne) h2.2
              (by decide), hsplit]
          | cons c1 r1 =>
            have hc1 : ¬ c1 = ':' := hsn2 t rfl hdt c1 (by rw [hdrop]; rfl)
            have hc1d : c1.isDigit = false := dropWhile_head_false _ t c1 r1 hdrop
            have hts : t.takeWhile Char.isDigit ++ c1 :: r1 = t := by
              have h0 := List.takeWhile_append_dropWhile (p := Char.isDigit) (l := t)
              rw [hdrop] at h0
              exact h0
            have hC2 : t ++ ' ' :: c :: ic' =
                t.takeWhile Char.isDigit ++ c1 :: (r1 ++ ' ' :: c :: ic') := by
              conv_lhs => rw [← hts]
              simp
            have hdigs : ∀ x ∈ t.takeWhile Char.isDigit, Char.isDigit x = true :=
              fun x hx => List.mem_takeWhile_imp hx
            have h2 := takeWhile_append_neg Char.isDigit (t.takeWhile Char.isDigit)
              c1 (r1 ++ ' ' :: c :: ic') hdigs hc1d
            rw [hC2, parse_eq_noColon _ c1 _ (by rw [h2.1]; exact hdt) h2.2 hc1,
              ← hC2, hsplit]
      rw [hC, key]
      exact hC

/-! ### Decimal rendering facts -/

lemma digitChar_isDigit (n : Nat) (h : n < 10) :
    (Nat.digitChar n).isDigit = true := by
  interval_cases n <;> decide

lemma natCharsAux_ne_nil (fuel n : Nat) (h : 0 < fuel) :
    natCharsAux fuel n ≠ [] := by
  cases fuel with
  | zero => exact absurd h (by simp)
  | succ f =>
    rw [natCharsAux]
    split <;> simp

lemma natCharsAux_digits :
    ∀ fuel n : Nat, ∀ c ∈ natCharsAux fuel n, c.isDigit = true := by
  intro fuel
  induction fuel with
  | zero => intro n c hc; simp [natCharsAux] at hc
  | succ f ih =>
    intro n c hc
    rw [natCharsAux] at hc
    by_cases h : n < 10
    · rw [if_pos h] at hc
      simp at hc
      subst hc
      exact digitChar_isDigit n h
    · rw [if_neg h] at hc
      rcases List.mem_append.1 hc with h1 | h1
      · exact ih _ c h1
      · simp at h1
        subst h1
        exact digitChar_isDigit _ (Nat.mod_lt _ (by norm_num))

lemma natChars_ne_nil (n : Nat) : natChars n ≠ [] :=
  natCharsAux_ne_nil _ _ (Nat.succ_pos n)

lemma natChars_digits (n : Nat) : ∀ c ∈ natChars n, c.isDigit = true :=
  natCharsAux_digits _ n

/-! ### The formatter succeeds on every valid mode -/

lemma format_icon_list_ok (mode : List Char) (h : ValidMode mode)
    (l : List (List Char)) : ∃ s, format_icon_list l mode = .ok s := by
  rcases h with h | h | h
  · exact ⟨l.flatten, by rw [format_icon_list, if_pos h]⟩
  · exact ⟨_, by
      rw [format_icon_list, if_neg (by rw [h]; decide), if_pos h]⟩
  · exact ⟨_, by
      rw [format_icon_list, if_neg (by rw [h]; decide),
        if_neg (by rw [h]; decide), if_pos h]⟩

/-! ### The numbers assigned by the reconciliation counter -/

lemma rename_go_nums (cfg : Config) (mode : List Char)
    (hre : cfg.renumberWorkspaces = true) (hmode : ValidMode mode) :
    ∀ (wss : List Workspace) (infos : List WsInfo) (prev : Option (List Char))
      (n : Nat), wss.length ≤ infos.length →
      Except.map (List.map TraceEntry.newNum) (rename_go cfg mode prev n wss infos)
        = .ok ((numsFrom prev n ((infos.take wss.length).map WsInfo.output)).map
            fun k => some (natChars k)) := by
  intro wss
  induction wss with
  | nil => intro infos prev n _; simp [rename_go, numsFrom, Except.map]
  | cons ws wss ih =>
    intro infos prev n hlen
    cases infos with
    | nil => simp at hlen
    | cons info infos =>
      have hlen2 : wss.length ≤ infos.length := by simpa using hlen
      obtain ⟨s, hs⟩ := format_icon_list_ok mode hmode
        (effective_icon_list cfg (ws.windows.map (icon_for_window cfg)))
      have hrec := ih infos (some info.output)
        ((match prev with
          | some p => if info.output ≠ p then n + 1 else n
          | none => n) + 1) hlen2
      simp only [rename_go, hs]
      rw [except_map_cons_case, hrec]
      simp only [List.take, List.map, numsFrom, hre, if_true, List.map_cons]

lemma numsFrom_replicate (o : List Char) :
    ∀ (k : Nat) (t : List (List Char)) (m : Nat),
      numsFrom (some o) m (List.replicate k o ++ t) =
        List.range' m k ++ numsFrom (some o) (m + k) t := by
  intro k
  induction k with
  | zero => intro t m; simp
  | succ k ih =>
    intro t m
    rw [List.replicate_succ, List.cons_append]
    show numsFrom (some o) m (o :: (List.replicate k o ++ t)) = _
    rw [numsFrom]
    simp only [ne_eq, not_true_eq_false, if_false, ite_self]
    rw [ih t (m + 1), List.range'_succ]
    simp only [List.cons_append]
    have harith : m + 1 + k = m + (k + 1) := by omega
    rw [harith]

lemma numsFrom_groups :
    ∀ (groups : List (List Char × Nat)) (p : List Char) (n : Nat),
      List.Chain' (fun a b => a.1 ≠ b.1) groups →
      (∀ g ∈ groups, 1 ≤ g.2) →
      (∀ g, groups.head? = some g → ¬ g.1 = p) →
      numsFrom (some p) n
          ((groups.map fun g => List.replicate g.2 g.1).flatten) =
        gapNums (n + 1) (groups.map Prod.snd) := by
  intro groups
  induction groups with
  | nil => intro p n _ _ _; simp [numsFrom, gapNums]
  | cons g rest ih =>
    intro p n hchain hpos hhead
    obtain ⟨o, s⟩ := g
    have hs : 1 ≤ s := hpos (o, s) (by simp)
    cases s with
    | zero => exact absurd hs (by simp)
    | succ t =>
      have hop : ¬ o = p := hhead (o, t + 1) rfl
      rw [List.map_cons, List.flatten_cons, List.replicate_succ, List.cons_append]
      show numsFrom (some p) n (o :: (List.replicate t o ++ _)) = _
      rw [numsFrom]
      simp only [ne_eq]
      rw [if_pos hop, numsFrom_replicate]
      have hchain2 : List.Chain' (fun a b => a.1 ≠ b.1) rest :=
        (List.chain'_cons'.1 hchain).2
      have hhead2 : ∀ g2, rest.head? = some g2 → ¬ g2.1 = o := by
        intro g2 hg2 he
        exact (List.chain'_cons'.1 hchain).1 g2 hg2 he.symm
      have hpos2 : ∀ g2 ∈ rest, 1 ≤ g2.2 := fun g2 hg2 => hpos g2 (by simp [hg2])
      rw [ih o (n + 1 + 1 + t) hchain2 hpos2 hhead2]
      rw [List.map_cons, gapNums, List.range'_succ]
      simp only [List.cons_append]
      have harith : n + 1 + 1 + t + 1 = n + 1 + (t + 1) + 1 := by omega
      rw [harith]

lemma numsFrom_top (groups : List (List Char × Nat))
    (hchain : List.Chain' (fun a b => a.1 ≠ b.1) groups)
    (hpos : ∀ g ∈ groups, 1 ≤ g.2) :
    numsFrom none 1 ((groups.map fun g => List.replicate g.2 g.1).flatten) =
      gapNums 1 (groups.map Prod.snd) := by
  cases groups with
  | nil => simp [numsFrom, gapNums]
  | cons g rest =>
    obtain ⟨o, s⟩ := g
    have hs : 1 ≤ s := hpos (o, s) (by simp)
    cases s with
    | zero => exact absurd hs (by simp)
    | succ t =>
      rw [List.map_cons, List.flatten_cons, List.replicate_succ, List.cons_append]
      show numsFrom none 1 (o :: (List.replicate t o ++ _)) = _
      rw [numsFrom]
      rw [numsFrom_replicate]
      have hchain2 : List.Chain' (fun a b => a.1 ≠ b.1) rest :=
        (List.chain'_cons'.1 hchain).2
      have hhead2 : ∀ g2, rest.head? = some g2 → ¬ g2.1 = o := by
        intro g2 hg2 he
        exact (List.chain'_cons'.1 hchain).1 g2 hg2 he.symm
      have hpos2 : ∀ g2 ∈ rest, 1 ≤ g2.2 := fun g2 hg2 => hpos g2 (by simp [hg2])
      rw [numsFrom_groups rest o (1 + 1 + t) hchain2 hpos2 hhead2]
      rw [List.map_cons, gapNums, List.range'_succ]
      simp only [List.cons_append]
      have harith : 1 + 1 + t + 1 = 1 + (t + 1) + 1 := by omega
      rw [harith]

lemma rename_go_cons_eq (cfg : Config) (mode : List Char)
    (prev : Option (List Char)) (n : Nat) (ws : Workspace)
    (wss : List Workspace) (info : WsInfo) (infos : List WsInfo)
    (new_icons : List Char)
    (hfmt : format_icon_list
      (effective_icon_list cfg (ws.windows.map (icon_for_window cfg))) mode
        = .ok new_icons) :
    rename_go cfg mode prev n (ws :: wss) (info :: infos) =
      match rename_go cfg mode (some info.output)
          (renumStep prev info.output n + 1) wss infos with
      | .error e => .error e
      | .ok tr =>
        .ok (trace_entry_of cfg ws new_icons (renumStep prev info.output n) :: tr) := by
  simp only [rename_go, hfmt, renumStep, trace_entry_of]

lemma rename_go_cons_error (cfg : Config) (mode : List Char)
    (prev : Option (List Char)) (n : Nat) (ws : Workspace)
    (wss : List Workspace) (info : WsInfo) (infos : List WsInfo) (e : List Char)
    (hfmt : format_icon_list
      (effective_icon_list cfg (ws.windows.map (icon_for_window cfg))) mode
        = .error e) :
    rename_go cfg mode prev n (ws :: wss) (info :: infos) = .error e := by
  simp only [rename_go, hfmt]

/-- Reconciling a workspace that already carries its reconciled name
computes that very name again: the computed name is a fixpoint. -/
lemma trace_entry_fixpoint (cfg : Config) (ws : Workspace)
    (new_icons : List Char) (n1 : Nat) :
    (trace_entry_of cfg ⟨(trace_entry_of cfg ws new_icons n1).newName, ws.windows⟩
        new_icons n1).newName
      = (trace_entry_of cfg ws new_icons n1).newName := by
  have hsn : ∀ t, (parse_workspace_name ws.name).shortname = some t → ' ' ∉ t :=
    fun t ht => parse_shortname_no_space ws.name t ht
  cases hre : cfg.renumberWorkspaces with
  | true =>
    simp only [trace_entry_of, hre, if_true]
    exact (parse_construct_num (natChars n1) (parse_workspace_name ws.name).shortname
      new_icons (natChars_ne_nil n1) (natChars_digits n1) hsn).2
  | false =>
    simp only [trace_entry_of, hre, if_false, Bool.false_eq_true]
    rcases parse_num_shape ws.name with hnone | ⟨d, hd, hne, hdig⟩
    · rw [hnone]
      exact parse_construct_none (parse_workspace_name ws.name).shortname new_icons
        hsn (fun t ht hdt c hc =>
          parse_shortname_digit_colon ws.name t hnone ht hdt c hc)
    · rw [hd]
      have h2 := parse_construct_num d (parse_workspace_name ws.name).shortname
        new_icons hne hdig hsn
      rw [h2.1]
      exact h2.2

lemma rename_go_idem (cfg : Config) (mode : List Char) :
    ∀ (wss : List Workspace) (infos : List WsInfo) (prev : Option (List Char))
      (n : Nat) (tr : List TraceEntry),
      rename_go cfg mode prev n wss infos = .ok tr →
      ∃ tr2,
        rename_go cfg mode prev n
            (List.zipWith (fun ws e => Workspace.mk e.newName ws.windows) wss tr)
            infos = .ok tr2 ∧
          ∀ e ∈ tr2, e.oldName = e.newName := by
  intro wss
  induction wss with
  | nil =>
    intro infos prev n tr h
    exact ⟨[], by simp [rename_go], by simp⟩
  | cons ws wss ih =>
    intro infos prev n tr h
    cases infos with
    | nil => simp [rename_go] at h
    | cons info infos =>
      cases hfmt : format_icon_list
          (effective_icon_list cfg (ws.windows.map (icon_for_window cfg))) mode with
      | error e =>
        rw [rename_go_cons_error cfg mode prev n ws wss info infos e hfmt] at h
        exact Except.noConfusion h
      | ok new_icons =>
        rw [rename_go_cons_eq cfg mode prev n ws wss info infos new_icons hfmt] at h
        cases hgo : rename_go cfg mode (some info.output)
            (renumStep prev info.output n + 1) wss infos with
        | error e => rw [hgo] at h; exact Except.noConfusion h
        | ok tr' =>
          rw [hgo] at h
          injection h with h2
          subst h2
          obtain ⟨tr2', hgo2, hfix⟩ :=
            ih infos (some info.output) (renumStep prev info.output n + 1) tr' hgo
          rw [List.zipWith_cons_cons]
          rw [rename_go_cons_eq cfg mode prev n
            ⟨(trace_entry_of cfg ws new_icons (renumStep prev info.output n)).newName,
              ws.windows⟩
            (List.zipWith (fun ws e => Workspace.mk e.newName ws.windows) wss tr')
            info infos new_icons hfmt]
          rw [hgo2]
          refine ⟨_, rfl, ?_⟩
          intro e he
          rcases List.mem_cons.1 he with he | he
          · subst he
            rw [trace_entry_fixpoint cfg ws new_icons (renumStep prev info.output n)]
            rfl
          · exact hfix e he

/-! ### Failure of the pass on misaligned snapshots -/

lemma rename_go_index_error (cfg : Config) (mode : List Char)
    (hmode : ValidMode mode) :
    ∀ (wss : List Workspace) (infos : List WsInfo) (prev : Option (List Char))
      (n : Nat), infos.length < wss.length →
      rename_go cfg mode prev n wss infos = .error indexErrMsg := by
  intro wss
  induction wss with
  | nil => intro infos prev n h; simp at h
  | cons ws wss ih =>
    intro infos prev n h
    cases infos with
    | nil => simp [rename_go]
    | cons info infos =>
      obtain ⟨s, hs⟩ := format_icon_list_ok mode hmode
        (effective_icon_list cfg (ws.windows.map (icon_for_window cfg)))
      rw [rename_go_cons_eq cfg mode prev n ws wss info infos s hs,
        ih infos (some info.output) (renumStep prev info.output n + 1)
          (by simpa using h)]

/-! ### Failure of the formatter on an invalid mode -/

lemma format_icon_list_error (icons : List (List Char)) (mode : List Char)
    (h : ¬ ValidMode mode) :
    format_icon_list icons mode = .error (invalidModeMsg mode) := by
  rw [format_icon_list, if_neg (fun he => h (Or.inl he)),
    if_neg (fun he => h (Or.inr (Or.inl he))),
    if_neg (fun he => h (Or.inr (Or.inr he)))]

/-! ### Run-length encoding facts -/

lemma rle_flatten_replicate (l : List (List Char)) :
    ((rle l).map fun r => List.replicate r.2 r.1).flatten = l := by
  induction l with
  | nil => simp [rle]
  | cons x xs ih =>
    rw [rle]
    cases hr : rle xs with
    | nil =>
      rw [hr] at ih
      simp only [List.map_nil, List.flatten_nil] at ih
      subst ih
      simp
    | cons yc rest =>
      obtain ⟨y, c⟩ := yc
      rw [hr] at ih
      show (List.map (fun r => List.replicate r.2 r.1)
        (if x = y then (x, c + 1) :: rest
         else (x, 1) :: (y, c) :: rest)).flatten = x :: xs
      by_cases hxy : x = y
      · subst hxy
        rw [if_pos rfl]
        simp only [List.map_cons, List.flatten_cons] at ih ⊢
        rw [List.replicate_succ, List.cons_append, ih]
      · rw [if_neg hxy]
        simp only [List.map_cons, List.flatten_cons] at ih ⊢
        rw [ih]
        simp

lemma rle_counts_sum (l : List (List Char)) :
    ((rle l).map Prod.snd).sum = l.length := by
  induction l with
  | nil => simp [rle]
  | cons x xs ih =>
    rw [rle]
    cases hr : rle xs with
    | nil =>
      rw [hr] at ih
      simp at ih
      simp only [List.map_cons, List.map_nil, List.sum_cons, List.sum_nil,
        List.length_cons]
      omega
    | cons yc rest =>
      obtain ⟨y, c⟩ := yc
      rw [hr] at ih
      show ((List.map Prod.snd
        (if x = y then (x, c + 1) :: rest
         else (x, 1) :: (y, c) :: rest)).sum) = (x :: xs).length
      by_cases hxy : x = y
      · subst hxy
        rw [if_pos rfl]
        simp only [List.map_cons, List.sum_cons, List.length_cons] at ih ⊢
        omega
      · rw [if_neg hxy]
        simp only [List.map_cons, List.sum_cons, List.length_cons] at ih ⊢
        omega

lemma rle_counts_pos (l : List (List Char)) :
    ∀ r ∈ rle l, 1 ≤ r.2 := by
  induction l with
  | nil => simp [rle]
  | cons x xs ih =>
    rw [rle]
    cases hr : rle xs with
    | nil => simp
    | cons yc rest =>
      obtain ⟨y, c⟩ := yc
      rw [hr] at ih
      show ∀ r ∈ (if x = y then (x, c + 1) :: rest
        else (x, 1) :: (y, c) :: rest), 1 ≤ r.2
      by_cases hxy : x = y
      · subst hxy
        rw [if_pos rfl]
        intro r hrr
        rcases List.mem_cons.1 hrr with h1 | h1
        · subst h1; simp
        · exact ih r (List.mem_cons_of_mem _ h1)
      · rw [if_neg hxy]
        intro r hrr
        rcases List.mem_cons.1 hrr with h1 | h1
        · subst h1; simp
        · exact ih r h1

lemma rle_chain_ne (l : List (List Char)) :
    List.Chain' (fun a b => a.1 ≠ b.1) (rle l) := by
  induction l with
  | nil => simp [rle]
  | cons x xs ih =>
    rw [rle]
    cases hr : rle xs with
    | nil => simp
    | cons yc rest =>
      obtain ⟨y, c⟩ := yc
      rw [hr] at ih
      show List.Chain' (fun a b => a.1 ≠ b.1)
        (if x = y then (x, c + 1) :: rest else (x, 1) :: (y, c) :: rest)
      by_cases hxy : x = y
      · subst hxy
        rw [if_pos rfl]
        rcases List.chain'_cons'.1 ih with ⟨hhead, htail⟩
        exact List.chain'_cons'.2 ⟨hhead, htail⟩
      · rw [if_neg hxy]
        refine List.chain'_cons'.2 ⟨?_, ih⟩
        intro b hb
        have hb2 : b = (y, c) := by
          have := hb
          simp at this
          exact this.symm
        subst hb2
        simpa using hxy

/-! ### The single-icon collapse -/

lemma single_icon_all_default (icons : List (List Char))
    (h : ∀ i ∈ icons, i = DEFAULT_ICON) : single_icon icons = DEFAULT_ICON := by
  rw [single_icon, List.find?_eq_none.2 (fun x hx => by simp [h x hx])]
  rfl

lemma single_icon_first (pre : List (List Char)) (i : List Char)
    (post : List (List Char)) (hi : i ≠ DEFAULT_ICON)
    (hpre : ∀ j ∈ pre, j = DEFAULT_ICON) :
    single_icon (pre ++ i :: post) = i := by
  induction pre with
  | nil =>
    rw [List.nil_append, single_icon,
      List.find?_cons_of_pos _ (by simpa using hi)]
    rfl
  | cons j pre' ih =>
    have hj : j = DEFAULT_ICON := hpre j (by simp)
    have hpre' : ∀ k ∈ pre', k = DEFAULT_ICON :=
      fun k hk => hpre k (List.mem_cons_of_mem _ hk)
    rw [List.cons_append, single_icon,
      List.find?_cons_of_neg _ (by simp [hj])]
    rw [single_icon] at ih
    exact ih hpre'

/-! ### Shape of the icon resolver -/

lemma icon_for_window_eq (cfg : Config) (w : WindowView) :
    icon_for_window cfg w =
      if cfg.checkWindowNamesFirst then
        match icon_for_name cfg w with
        | some i => i
        | none => (icon_for_class cfg w).getD DEFAULT_ICON
      else (icon_for_class cfg w).getD DEFAULT_ICON := by
  cases hc : cfg.checkWindowNamesFirst <;>
    cases hn : icon_for_name cfg w <;>
    cases hcl : icon_for_class cfg w <;>
    simp [icon_for_window, hc, hn, hcl]

/-! ### Shape of the shutdown pass -/

lemma on_exit_commands_eq (tree : List Workspace) :
    on_exit_commands tree =
      (tree.map fun ws =>
        (ws.name,
          construct_workspace_name
            ⟨(parse_workspace_name ws.name).num,
              (parse_workspace_name ws.name).shortname, none⟩)).filter
        fun c => decide (¬ c.1 = c.2) := by
  induction tree with
  | nil => simp [on_exit_commands]
  | cons ws rest ih =>
    rw [on_exit_commands, List.filterMap_cons]
    rw [on_exit_commands] at ih
    by_cases h : ws.name = construct_workspace_name
        ⟨(parse_workspace_name ws.name).num,
          (parse_workspace_name ws.name).shortname, none⟩
    · rw [if_pos h, List.map_cons, List.filter_cons, if_neg (by simpa using h)]
      exact ih
    · rw [if_neg h, List.map_cons, List.filter_cons, if_pos (by simpa using h)]
      rw [ih]

lemma on_exit_run_fst (ex : List Char × List Char → Bool) :
    ∀ tree : List Workspace,
      (on_exit_run ex tree).map Prod.fst = on_exit_commands tree := by
  intro tree
  induction tree with
  | nil => simp [on_exit_run, on_exit_commands]
  | cons ws rest ih =>
    rw [on_exit_run, on_exit_commands, List.filterMap_cons]
    by_cases h : ws.name = construct_workspace_name
        ⟨(parse_workspace_name ws.name).num,
          (parse_workspace_name ws.name).shortname, none⟩
    · rw [if_pos h, if_pos h]
      rw [on_exit_commands] at ih
      exact ih
    · rw [if_neg h, if_neg h, List.map_cons]
      rw [on_exit_commands] at ih
      rw [ih]

/-! ## Claim theorems -/

/-- C1: with renumbering enabled and a valid formatter mode, a
reconciliation pass over workspaces whose info snapshot forms contiguous
output groups of sizes `s_1..s_K` assigns the numbers `1..s_1` to the
first group and starts each later group exactly two past the previous
group's last number, ascending by one within each group. -/
theorem C1_renumber_gap (cfg : Config) (mode : List Char)
    (groups : List (List Char × Nat)) (wss : List Workspace)
    (hre : cfg.renumberWorkspaces = true) (hmode : ValidMode mode)
    (hchain : List.Chain' (fun a b => a.1 ≠ b.1) groups)
    (hpos : ∀ g ∈ groups, 1 ≤ g.2)
    (hlen : wss.length =
      ((groups.map fun g => List.replicate g.2 (WsInfo.mk g.1)).flatten).length) :
    Except.map (List.map TraceEntry.newNum)
        (rename_trace cfg mode wss
          ((groups.map fun g => List.replicate g.2 (WsInfo.mk g.1)).flatten))
      = .ok ((gapNums 1 (groups.map Prod.snd)).map fun k => some (natChars k)) := by
  rw [rename_trace,
    rename_go_nums cfg mode hre hmode wss _ none 1 (le_of_eq hlen)]
  congr 1
  rw [hlen, List.take_length]
  have hmapout :
      ((groups.map fun g => List.replicate g.2 (WsInfo.mk g.1)).flatten).map
          WsInfo.output
        = (groups.map fun g => List.replicate g.2 g.1).flatten := by
    rw [List.map_flatten, List.map_map]
    congr 1
    apply List.map_congr_left
    intro g _
    simp
  rw [hmapout, numsFrom_top groups hchain hpos]

/-- C1 witness: two outputs with two workspaces each receive the numbers
1, 2, 4, 5. -/
theorem C1_renumber_gap_witness :
    Except.map (List.map TraceEntry.newNum)
        (rename_trace cfgDefault (("default").toList)
          [⟨("a").toList, []⟩, ⟨("b").toList, []⟩, ⟨("c").toList, []⟩,
            ⟨("d").toList, []⟩]
          (([(("A").toList, 2), (("B").toList, 2)].map fun g =>
            List.replicate g.2 (WsInfo.mk g.1)).flatten))
      = .ok [some (("1").toList), some (("2").toList), some (("4").toList),
          some (("5").toList)] := by
  have h := C1_renumber_gap cfgDefault (("default").toList)
    [(("A").toList, 2), (("B").toList, 2)]
    [⟨("a").toList, []⟩, ⟨("b").toList, []⟩, ⟨("c").toList, []⟩,
      ⟨("d").toList, []⟩]
    rfl (Or.inl rfl)
    (List.chain'_cons.2 ⟨by decide, List.chain'_singleton _⟩)
    (by decide) (by decide)
  rw [h]
  rfl

/-- C2 (amended): the resolver returns the name icon exactly when the
name-first flag is set and a name icon exists; in every other case it
returns the class icon when present and otherwise the default glyph, so
it never fails — but with class-resolution configured first the name
result is never consulted, and a window with only a name match gets the
default glyph. -/
theorem C2_resolver_precedence (cfg : Config) (w : WindowView) :
    icon_for_window cfg w =
      if cfg.checkWindowNamesFirst then
        match icon_for_name cfg w with
        | some i => i
        | none => (icon_for_class cfg w).getD DEFAULT_ICON
      else (icon_for_class cfg w).getD DEFAULT_ICON :=
  icon_for_window_eq cfg w

/-- C2 counterexample: with class-resolution configured first, a window
with no class values but a by-name match resolves to the default glyph,
not to the name icon, refuting the claim that the first non-absent of
the two results is returned. -/
theorem C2_counterexample :
    icon_for_name cfgClassFirst winNameOnly = some (("V").toList) ∧
    icon_for_class cfgClassFirst winNameOnly = none ∧
    icon_for_window cfgClassFirst winNameOnly = DEFAULT_ICON ∧
    DEFAULT_ICON ≠ ("V").toList := by
  exact ⟨rfl, rfl, rfl, by decide⟩

/-- C3 (amended): parsing then reconstructing reproduces every name
without an icon annotation exactly; and for NameParts with absent icons
whose number and shortname fields contain no space character,
reconstructing then parsing yields absent icons again. -/
theorem C3_codec_roundtrip :
    (∀ s : List Char, (parse_workspace_name s).icons = none →
      construct_workspace_name (parse_workspace_name s) = s) ∧
    (∀ p : NameParts, p.icons = none →
      (∀ d, p.num = some d → ' ' ∉ d) →
      (∀ t, p.shortname = some t → ' ' ∉ t) →
      (parse_workspace_name (construct_workspace_name p)).icons = none) := by
  refine ⟨construct_parse_of_icons_none, ?_⟩
  intro p hic hnum hsn
  obtain ⟨num, sn, ic⟩ := p
  simp only at hic
  subst hic
  apply parse_icons_none_of_no_space
  intro hmem
  cases num with
  | some d =>
    cases sn with
    | some t =>
      rw [construct_some_some_none] at hmem
      rcases List.mem_append.1 hmem with h1 | h1
      · exact hnum d rfl h1
      · rcases List.mem_cons.1 h1 with h1 | h1
        · exact absurd h1 (by decide)
        · exact hsn t rfl h1
    | none =>
      rw [construct_some_none_none] at hmem
      exact hnum d rfl hmem
  | none =>
    cases sn with
    | some t =>
      rw [construct_none_none] at hmem
      exact hsn t rfl hmem
    | none =>
      rw [construct_none_none] at hmem
      simp at hmem

/-- C3 counterexample: the NameParts with absent icons and shortname
`"a b"` re-parses with a present icons field, refuting the unrestricted
second half of the claim. -/
theorem C3_counterexample :
    (⟨none, some (("a b").toList), none⟩ : NameParts).icons = none ∧
    (parse_workspace_name
        (construct_workspace_name ⟨none, some (("a b").toList), none⟩)).icons
      ≠ none := by
  exact ⟨rfl, by decide⟩

/-- C3 witness: both amended parts at concrete inputs. -/
theorem C3_codec_roundtrip_witness :
    construct_workspace_name (parse_workspace_name (("2:code").toList))
        = ("2:code").toList ∧
    (parse_workspace_name
        (construct_workspace_name
          ⟨some (("3").toList), some (("web").toList), none⟩)).icons = none :=
  ⟨C3_codec_roundtrip.1 (("2:code").toList) (by decide),
    C3_codec_roundtrip.2 ⟨some (("3").toList), some (("web").toList), none⟩ rfl
      (fun d hd => by injection hd with h2; rw [← h2]; decide)
      (fun t ht => by injection ht with h2; rw [← h2]; decide)⟩

/-- C4: if one reconciliation pass succeeds and every computed name takes
effect (each workspace now carries its computed new name, windows and
info snapshot unchanged), the next pass emits zero rename commands. -/
theorem C4_reconcile_idempotent (cfg : Config) (mode : List Char)
    (wss : List Workspace) (infos : List WsInfo) (tr : List TraceEntry)
    (h : rename_trace cfg mode wss infos = .ok tr) :
    rename_workspaces cfg mode
        (List.zipWith (fun ws e => Workspace.mk e.newName ws.windows) wss tr)
        infos = .ok [] := by
  obtain ⟨tr2, hgo2, hfix⟩ := rename_go_idem cfg mode wss infos none 1 tr h
  rw [rename_workspaces, rename_trace, hgo2]
  simp only [Except.map]
  congr 1
  rw [List.filterMap_eq_nil_iff]
  intro e he
  rw [if_pos (hfix e he)]

/-- C4 witness: the pass on a renamed workspace emits no commands. -/
theorem C4_reconcile_idempotent_witness :
    rename_workspaces cfgDefault (("default").toList)
        (List.zipWith (fun ws e => Workspace.mk e.newName ws.windows)
          ([⟨("3:web").toList, []⟩] : List Workspace)
          ([⟨("3:web").toList, some (("1").toList), ("1:web").toList⟩] :
            List TraceEntry))
        [⟨("A").toList⟩] = .ok [] :=
  C4_reconcile_idempotent cfgDefault (("default").toList)
    [⟨("3:web").toList, []⟩] [⟨("A").toList⟩]
    [⟨("3:web").toList, some (("1").toList), ("1:web").toList⟩] rfl

/-- C5: the mathematician and chemist modes run-length-encode only
consecutive identical icons — the encoding decodes back to the input,
adjacent runs carry different icons, every run count is at least one and
the counts sum to the input length — rendering each count above one in
superscript respectively subscript digits (digit by digit for multi-digit
counts) and count-one runs as the bare icon; witnessed by the scenarios
`[A, A, A, B]` (mathematician), a twelve-fold repeat (multi-digit count)
and `[A, B, A]` (chemist, no global grouping). -/
theorem C5_formatter_rle :
    (∀ icons : List (List Char),
      format_icon_list icons (("mathematician").toList)
          = .ok (((rle icons).map (renderRun supDigit)).flatten) ∧
      format_icon_list icons (("chemist").toList)
          = .ok (((rle icons).map (renderRun subDigit)).flatten) ∧
      ((rle icons).map fun r => List.replicate r.2 r.1).flatten = icons ∧
      List.Chain' (fun a b => a.1 ≠ b.1) (rle icons) ∧
      (∀ r ∈ rle icons, 1 ≤ r.2) ∧
      ((rle icons).map Prod.snd).sum = icons.length) ∧
    format_icon_list [("A").toList, ("A").toList, ("A").toList, ("B").toList]
        (("mathematician").toList) = .ok (("A³B").toList) ∧
    format_icon_list (List.replicate 12 (("A").toList))
        (("mathematician").toList) = .ok (("A¹²").toList) ∧
    format_icon_list [("A").toList, ("B").toList, ("A").toList]
        (("chemist").toList) = .ok (("ABA").toList) := by
  refine ⟨fun icons => ⟨?_, ?_, rle_flatten_replicate icons, rle_chain_ne icons,
    rle_counts_pos icons, rle_counts_sum icons⟩, rfl, rfl, rfl⟩
  · rw [format_icon_list, if_neg (by decide), if_pos rfl]
  · rw [format_icon_list, if_neg (by decide), if_neg (by decide), if_pos rfl]

/-- C5 witness: the run-length facts applied at the concrete list
`[A, A]`. -/
theorem C5_formatter_rle_witness :
    format_icon_list [("A").toList, ("A").toList] (("mathematician").toList)
        = .ok (((rle [("A").toList, ("A").toList]).map
            (renderRun supDigit)).flatten) ∧
    ((rle [("A").toList, ("A").toList]).map Prod.snd).sum = 2 :=
  ⟨(C5_formatter_rle.1 [("A").toList, ("A").toList]).1,
    (C5_formatter_rle.1 [("A").toList, ("A").toList]).2.2.2.2.2⟩

/-- C6: with single-icon mode configured the icon list is replaced,
before formatting, by its first icon that is not the default glyph — the
default glyph itself when every icon is the default. -/
theorem C6_single_icon_mode (cfg : Config) (icons : List (List Char))
    (h : cfg.singleIconOnly = true) :
    effective_icon_list cfg icons = [single_icon icons] ∧
    ((∀ i ∈ icons, i = DEFAULT_ICON) → single_icon icons = DEFAULT_ICON) ∧
    (∀ pre i post, icons = pre ++ i :: post → i ≠ DEFAULT_ICON →
      (∀ j ∈ pre, j = DEFAULT_ICON) → single_icon icons = i) := by
  refine ⟨by simp [effective_icon_list, h], single_icon_all_default icons, ?_⟩
  intro pre i post heq hi hpre
  rw [heq]
  exact single_icon_first pre i post hi hpre

/-- C6 witness: under `cfgSingle` the list `[*, A]` collapses to `[A]`
before formatting. -/
theorem C6_single_icon_mode_witness :
    effective_icon_list cfgSingle [DEFAULT_ICON, ("A").toList]
        = [("A").toList] ∧
    single_icon [DEFAULT_ICON, ("A").toList] = ("A").toList := by
  have h := C6_single_icon_mode cfgSingle [DEFAULT_ICON, ("A").toList] rfl
  have h2 := h.2.2 [DEFAULT_ICON] (("A").toList) [] rfl (by decide)
    (fun j hj => by simpa using hj)
  exact ⟨h.1.trans (by rw [h2]), h2⟩

/-- C7: the shutdown pass parses each workspace name, reconstructs it
with icons forced to absent — keeping the parsed number and shortname —
and emits a rename command exactly for the workspaces whose name changes;
in particular workspace `2:code 🔥` is renamed to `2:code`. -/
theorem C7_shutdown_strip :
    (∀ tree : List Workspace,
      on_exit_commands tree =
        (tree.map fun ws =>
          (ws.name,
            construct_workspace_name
              ⟨(parse_workspace_name ws.name).num,
                (parse_workspace_name ws.name).shortname, none⟩)).filter
          fun c => decide (¬ c.1 = c.2)) ∧
    on_exit_commands [⟨("2:code 🔥").toList, []⟩]
      = [((("2:code 🔥").toList), ("2:code").toList)] :=
  ⟨on_exit_commands_eq, by decide⟩

/-- C8: an unrecognized formatter mode makes `format_icon_list` fail with
the distinct InvalidFormatMode error, and the error propagates through a
reconciliation pass over any nonempty snapshot instead of being replaced
by default-mode formatting. -/
theorem C8_invalid_mode (icons : List (List Char)) (mode : List Char)
    (h : ¬ ValidMode mode) :
    format_icon_list icons mode = .error (invalidModeMsg mode) ∧
    ∀ (cfg : Config) (ws : Workspace) (wss : List Workspace) (info : WsInfo)
      (infos : List WsInfo),
      rename_workspaces cfg mode (ws :: wss) (info :: infos)
        = .error (invalidModeMsg mode) := by
  refine ⟨format_icon_list_error icons mode h, ?_⟩
  intro cfg ws wss info infos
  rw [rename_workspaces, rename_trace,
    rename_go_cons_error cfg mode none 1 ws wss info infos _
      (format_icon_list_error _ mode h)]
  rfl

/-- C8 witness: the mode `bogus` fails and the failure propagates. -/
theorem C8_invalid_mode_witness :
    format_icon_list [] (("bogus").toList)
        = .error (invalidModeMsg (("bogus").toList)) ∧
    rename_workspaces cfgDefault (("bogus").toList) [⟨[], []⟩] [⟨[]⟩]
        = .error (invalidModeMsg (("bogus").toList)) := by
  have h := C8_invalid_mode [] (("bogus").toList) (by decide)
  exact ⟨h.1, h.2 cfgDefault ⟨[], []⟩ [] ⟨[]⟩ []⟩

/-- C9: the shutdown pass attempts its command for every changed
workspace no matter which commands the IPC collaborator reports as
failed, and the terminal quit step is reached for every collaborator
behavior. -/
theorem C9_shutdown_best_effort (ex : List Char × List Char → Bool)
    (tree : List Workspace) :
    (on_exit_pass ex tree).1.map Prod.fst = on_exit_commands tree ∧
    (on_exit_pass ex tree).2 = true :=
  ⟨on_exit_run_fst ex tree, rfl⟩

/-- C10: the pass pairs the i-th tree workspace with the i-th info entry;
whenever the tree yields more workspaces than the info list (and the mode
is valid, so no earlier failure intervenes), the indexed lookup is out of
range and the whole pass fails with the index error. -/
theorem C10_misaligned_snapshots (cfg : Config) (mode : List Char)
    (wss : List Workspace) (infos : List WsInfo) (hmode : ValidMode mode)
    (hlen : infos.length < wss.length) :
    rename_workspaces cfg mode wss infos = .error indexErrMsg := by
  rw [rename_workspaces, rename_trace,
    rename_go_index_error cfg mode hmode wss infos none 1 hlen]
  rfl

/-- C10 witness: one workspace against an empty info list fails. -/
theorem C10_misaligned_snapshots_witness :
    rename_workspaces cfgDefault (("default").toList) [⟨("1").toList, []⟩] []
      = .error indexErrMsg :=
  C10_misaligned_snapshots cfgDefault (("default").toList)
    [⟨("1").toList, []⟩] [] (Or.inl rfl) (by decide)
